import Mathlib

/-!
Shallow embedding of the Uptime Kuma MCP client cache synchronization core
(file src/uptime-kuma-client.ts and its type module).

JavaScript plain objects used as string-keyed dictionaries are modelled as
association lists `List (String × α)` in key insertion order:
assignment to an existing key keeps its position, assignment to a fresh key
appends at the end, and `delete` removes the key.  This mirrors the
enumeration order of Object.entries / Object.assign in the source.
-/

/-- Lookup of a key in a JS-object model: first matching entry wins
(a real JS object never holds a duplicate key). -/
def lookupKey (m : List (String × α)) (k : String) : Option α :=
  match m with
  | [] => none
  | (k0, v) :: t => if k0 = k then some v else lookupKey t k

/-- Property assignment obj[k] = v: update in place when the key exists
(keeping insertion order), otherwise append the new key at the end. -/
def setKey (m : List (String × α)) (k : String) (v : α) : List (String × α) :=
  match m with
  | [] => [(k, v)]
  | (k0, v0) :: t => if k0 = k then (k0, v) :: t else (k0, v0) :: setKey t k v

/-- The JS delete operator: remove the entry for a key. -/
def eraseKey (m : List (String × α)) (k : String) : List (String × α) :=
  m.filter (fun p => p.1 ≠ k)

/-- Object.assign(target, src): assign every entry of src into target,
in the enumeration order of src. -/
def objAssign (target src : List (String × α)) : List (String × α) :=
  src.foldl (fun t p => setKey t p.1 p.2) target

theorem lookupKey_setKey_self (m : List (String × α)) (k : String) (v : α) :
    lookupKey (setKey m k v) k = some v := by
  induction m with
  | nil => simp [setKey, lookupKey]
  | cons p t ih =>
    obtain ⟨k0, v0⟩ := p
    by_cases h : k0 = k
    · simp [setKey, lookupKey, h]
    · simp [setKey, lookupKey, h, ih]

theorem lookupKey_setKey_ne (m : List (String × α)) (k k' : String) (v : α)
    (h : k' ≠ k) : lookupKey (setKey m k v) k' = lookupKey m k' := by
  induction m with
  | nil => simp [setKey, lookupKey, Ne.symm h]
  | cons p t ih =>
    obtain ⟨k0, v0⟩ := p
    by_cases h0 : k0 = k
    · subst h0
      have hne : k0 ≠ k' := Ne.symm h
      simp [setKey, lookupKey, hne]
    · simp [setKey, lookupKey, h0, ih]

theorem lookupKey_eraseKey_ne (m : List (String × α)) (k k' : String)
    (h : k' ≠ k) : lookupKey (eraseKey m k) k' = lookupKey m k' := by
  induction m with
  | nil => simp [eraseKey, lookupKey]
  | cons p t ih =>
    obtain ⟨k0, v0⟩ := p
    by_cases h0 : k0 = k
    · subst h0
      have hne : k0 ≠ k' := Ne.symm h
      have hstep : eraseKey ((k0, v0) :: t) k0 = eraseKey t k0 := by
        simp [eraseKey]
      rw [hstep, ih]
      simp [lookupKey, hne]
    · have hstep : eraseKey ((k0, v0) :: t) k = (k0, v0) :: eraseKey t k := by
        simp [eraseKey, h0]
      rw [hstep]
      simp [lookupKey, ih]

theorem lookupKey_eq_none_of_not_mem (m : List (String × α)) (k : String)
    (h : k ∉ m.map Prod.fst) : lookupKey m k = none := by
  induction m with
  | nil => rfl
  | cons p t ih =>
    obtain ⟨k0, v0⟩ := p
    simp only [List.map_cons, List.mem_cons] at h
    push_neg at h
    simp [lookupKey, Ne.symm h.1, ih h.2]

theorem mem_setKey (m : List (String × α)) (k : String) (v : α)
    (p : String × α) (hp : p ∈ setKey m k v) : p ∈ m ∨ p = (k, v) := by
  induction m with
  | nil => simp [setKey] at hp; simp [hp]
  | cons q t ih =>
    obtain ⟨k0, v0⟩ := q
    by_cases h0 : k0 = k
    · subst h0
      simp [setKey] at hp
      rcases hp with h | h
      · right; simp [h]
      · left; simp [h]
    · simp [setKey, h0] at hp
      rcases hp with h | h
      · left; simp [h]
      · rcases ih h with h1 | h1
        · left; simp [h1]
        · right; exact h1

theorem lookupKey_objAssign (target src : List (String × α)) (k : String)
    (hnd : (src.map Prod.fst).Nodup) :
    lookupKey (objAssign target src) k =
      match lookupKey src k with
      | some v => some v
      | none => lookupKey target k := by
  induction src generalizing target with
  | nil => simp [objAssign, lookupKey]
  | cons p t ih =>
    obtain ⟨k0, v0⟩ := p
    simp only [List.map_cons, List.nodup_cons] at hnd
    have step : objAssign target ((k0, v0) :: t) = objAssign (setKey target k0 v0) t := rfl
    rw [step, ih _ hnd.2]
    by_cases h : k0 = k
    · subst h
      have : lookupKey t k0 = none :=
        lookupKey_eq_none_of_not_mem _ _ hnd.1
      simp [lookupKey, this, lookupKey_setKey_self]
    · simp [lookupKey, h, lookupKey_setKey_ne _ _ _ _ (fun hh => h hh.symm)]

/-!
Data model, from the zod schemas in the type module.

A Heartbeat carries its owning monitor id in up to two optional fields:
snake_case monitor_id and camelCase monitorID.  Fields that the schema
declares nullable and optional are modelled as Option (Option _): the outer
layer is field presence, the inner layer is null.  The schema coerces
important through Boolean(), hence Bool here.
-/

structure Heartbeat where
  status : Int
  time : String
  msg : String
  important : Bool
  id : Option Int := none
  monitor_id : Option Int := none
  ping : Option (Option Int) := none
  duration : Option Int := none
  down_count : Option Int := none
  retries : Option Int := none
  end_time : Option String := none
  monitorID : Option Int := none
  localDateTime : Option String := none
  timezone : Option String := none
deriving DecidableEq, Repr

/-- The heartbeat cache: monitor-id-as-string to the stored heartbeat
sequence, most recent first. -/
abbrev HBCache := List (String × List Heartbeat)

/-- Handler of the full-history heartbeatList event:
heartbeatListCache[monitorID.toString()] = heartbeatList.
The pushed array is stored as given, with no truncation. -/
def handleHeartbeatList (c : HBCache) (monitorID : Int)
    (heartbeatList : List Heartbeat) : HBCache :=
  setKey c (toString monitorID) heartbeatList

/-- Handler of the incremental heartbeat event.  The source guard
if (!heartbeat.monitorID) covers both an absent field (undefined) and the
falsy number 0; in either case the event is dropped after logging a
diagnostic.  Otherwise the heartbeat is prepended (unshift) to the
sequence under key monitorID.toString() (created empty when absent), and
the sequence is cut back to 100 entries when it grew past 100.
The Bool result records whether the event was dropped with a diagnostic
(the console.error call in the source). -/
def handleHeartbeat (c : HBCache) (heartbeat : Heartbeat) : HBCache × Bool :=
  match heartbeat.monitorID with
  | none => (c, true)
  | some m =>
    if m = 0 then (c, true)
    else
      let key := toString m
      let prev := (lookupKey c key).getD []
      let updated := heartbeat :: prev
      let final := if 100 < updated.length then updated.take 100 else updated
      (setKey c key final, false)

/-- The two inbound event kinds that write the heartbeat cache. -/
inductive HBEvent where
  | fullList (monitorID : Int) (heartbeats : List Heartbeat)
  | beat (heartbeat : Heartbeat)
deriving DecidableEq, Repr

def applyHBEvent (c : HBCache) (e : HBEvent) : HBCache :=
  match e with
  | .fullList m hbs => handleHeartbeatList c m hbs
  | .beat hb => (handleHeartbeat c hb).1

/-- Apply a sequence of heartbeat-cache events in arrival order. -/
def applyHBEvents (c : HBCache) (es : List HBEvent) : HBCache :=
  es.foldl applyHBEvent c

/-- Apply a sequence of incremental heartbeat events only. -/
def applyBeats (c : HBCache) (hbs : List Heartbeat) : HBCache :=
  hbs.foldl (fun c hb => (handleHeartbeat c hb).1) c

/-- getHeartbeatList(maxHeartbeats): for every entry of the heartbeat
cache, result[monitorID] = heartbeats.slice(0, maxHeartbeats).  The
source default for maxHeartbeats is 1. -/
def getHeartbeatList (c : HBCache) (maxHeartbeats : Nat) : HBCache :=
  c.map (fun p => (p.1, p.2.take maxHeartbeats))

/-!
Monitor side.  The cache-writing handlers (monitorList replace,
updateMonitorIntoList via Object.assign, deleteMonitorFromList via delete)
never inspect the fields of a monitor record, so they are polymorphic in
the record type, exactly as the source operations are field-agnostic.
Claim C1 instantiates the record type with a JS-object model
List (String × Int) to expose top-level-key granularity.

The only operation reading record fields is getMonitorSummary, which uses
id, name, pathName, active and maintenance; MonitorRec models exactly the
fields the modelled operations consume (the remaining schema fields are
never read by any modelled operation).
-/

structure MonitorRec where
  id : Int
  name : String
  pathName : String
  active : Bool
  maintenance : Bool
deriving DecidableEq, Repr

/-- Handler of the updateMonitorIntoList event:
Object.assign(monitorListCache, updates).  Note the merge granularity:
the top-level keys of the cache object are monitor ids, so each id named
in updates has its whole record assigned. -/
def updateMonitorIntoList (cache updates : List (String × M)) :
    List (String × M) :=
  objAssign cache updates

/-- Handler of the deleteMonitorFromList event:
delete monitorListCache[monitorID.toString()]. -/
def deleteMonitorFromListCache (cache : List (String × M)) (monitorID : Int) :
    List (String × M) :=
  eraseKey cache (toString monitorID)

/-!
String helpers for the keyword filter of getMonitorSummary.  The source
uses trim, a split on the regex of whitespace runs, toLowerCase and
String.prototype.includes; the ASCII behaviour is modelled (Char.toLower
lowers A-Z, Char.isWhitespace covers the ASCII whitespace characters).
-/

/-- toLowerCase, character-wise (over the character list so that the
function evaluates inside the kernel). -/
def toLowerStr (s : String) : String :=
  ⟨s.data.map Char.toLower⟩

/-- Substring test on character lists, for String.prototype.includes. -/
def containsChars (hay needle : List Char) : Bool :=
  needle.isPrefixOf hay ||
    match hay with
    | [] => false
    | _ :: t => containsChars t needle

/-- hay.includes(needle). -/
def containsStr (hay needle : String) : Bool :=
  containsChars hay.data needle.data

/-- Collect the maximal runs of non-whitespace characters; cur is the
current run, reversed. -/
def wsTokensGo (cur : List Char) : List Char → List (List Char)
  | [] => if cur.isEmpty then [] else [cur.reverse]
  | c :: t =>
    if c.isWhitespace then
      if cur.isEmpty then wsTokensGo [] t else cur.reverse :: wsTokensGo [] t
    else wsTokensGo (c :: cur) t

/-- The JS String.prototype.trim: strip whitespace from both ends. -/
def trimStr (s : String) : String :=
  ⟨((s.data.dropWhile Char.isWhitespace).reverse.dropWhile
      Char.isWhitespace).reverse⟩

/-- The JS split on the whitespace-run regex, applied to an already
trimmed string: splitting the empty string yields the singleton list of
the empty string, otherwise the maximal whitespace runs separate the
tokens (and on a trimmed string no empty token arises). -/
def jsSplitWs (s : String) : List String :=
  if s = "" then [""] else (wsTokensGo [] s.data).map (fun l => ⟨l⟩)

/-- keywords.trim().split(whitespace runs).map(toLowerCase). -/
def keywordTokens (keywords : String) : List String :=
  (jsSplitWs (trimStr keywords)).map toLowerStr

/-- One entry of the getMonitorSummary result. -/
structure Summary where
  id : Int
  name : String
  pathName : String
  active : Bool
  maintenance : Bool
  status : Option Int
  msg : Option String
deriving DecidableEq, Repr

/-- The record pushed for one surviving monitor: essential fields plus
status and msg of the most recent cached heartbeat when one exists. -/
def summarize (hcache : HBCache) (monitorID : String) (m : MonitorRec) :
    Summary :=
  let heartbeats := (lookupKey hcache monitorID).getD []
  { id := m.id
    name := m.name
    pathName := m.pathName
    active := m.active
    maintenance := m.maintenance
    status := heartbeats.head?.map (fun h => h.status)
    msg := heartbeats.head?.map (fun h => h.msg) }

/-- keywordArray.every(keyword, pathNameLower.includes(keyword)). -/
def matchesKeywords (tokens : List String) (m : MonitorRec) : Bool :=
  tokens.all (fun t => containsStr (toLowerStr m.pathName) t)

/-- The keyword array: a missing keywords argument and the empty string
both yield an empty array (the JS truthiness test on keywords). -/
def parsedKeywords (keywords : Option String) : List String :=
  match keywords with
  | none => []
  | some kw => if kw = "" then [] else keywordTokens kw

/-- The loop body of getMonitorSummary: when the keyword array is
non-empty and some token is missing from the lowercased pathName the
monitor is skipped, otherwise its summary is pushed. -/
def summaryStep (tokens : List String) (hcache : HBCache)
    (p : String × MonitorRec) : Option Summary :=
  if 0 < tokens.length && !(matchesKeywords tokens p.2) then none
  else some (summarize hcache p.1 p.2)

/-- getMonitorSummary(keywords?): iterate the monitor cache in insertion
order, applying the keyword filter and pushing a summary for each
survivor. -/
def getMonitorSummary (mcache : List (String × MonitorRec)) (hcache : HBCache)
    (keywords : Option String) : List Summary :=
  mcache.filterMap (summaryStep (parsedKeywords keywords) hcache)

/-!
Session state.  The socket field is none when no channel handle exists,
some b when a handle exists with connected flag b.  The client starts
with a null socket and empty caches.
-/

structure ClientState (M : Type) where
  socket : Option Bool
  monitorListCache : List (String × M)
  heartbeatListCache : HBCache
deriving DecidableEq, Repr

/-- The state right after construction: null socket, empty caches. -/
def initClient : ClientState M :=
  { socket := none, monitorListCache := [], heartbeatListCache := [] }

/-- disconnect(): when a socket exists its listeners are removed and the
handle released (socket = null); the two caches are cleared
unconditionally. -/
def disconnect (s : ClientState M) : ClientState M :=
  { socket := none, monitorListCache := [], heartbeatListCache := [] }

/-- getMonitorList(): return the cached monitor mapping. -/
def getMonitorList (s : ClientState M) : List (String × M) :=
  s.monitorListCache

/-- getHeartbeatsForMonitor(monitorID, maxHeartbeats): slice of the cached
sequence, empty when the monitor has no cache entry. -/
def getHeartbeatsForMonitor (s : ClientState M) (monitorID : Int)
    (maxHeartbeats : Nat) : List Heartbeat :=
  match lookupKey s.heartbeatListCache (toString monitorID) with
  | none => []
  | some heartbeats => heartbeats.take maxHeartbeats

/-- The login acknowledgement shape. -/
structure LoginResponse where
  ok : Bool
  msg : Option String := none
  token : Option String := none
  tokenRequired : Option Bool := none
deriving DecidableEq, Repr

/-- The login request object: username and password always assigned,
token only when truthy (present and non-empty).  Modelled as a key-value
list so that field presence is observable. -/
def buildLoginData (username password : String) (token : Option String) :
    List (String × String) :=
  [("username", username), ("password", password)] ++
    (match token with
     | some t => if t = "" then [] else [("token", t)]
     | none => [])

/-- Outcome of login(username, password, token?) once the upstream
acknowledgement arrives: rejected when the socket is absent or not
connected, resolved when the acknowledgement has ok, rejected with the
upstream message (or the default) otherwise.  Listener registration
happens before the emit in the source and does not affect this outcome. -/
def login (s : ClientState M) (username password : String)
    (token : Option String) (response : LoginResponse) :
    Except String LoginResponse :=
  match s.socket with
  | some true =>
    if response.ok then Except.ok response
    else Except.error ((response.msg).getD "Login failed")
  | _ => Except.error "Not connected to server"

/-- Did the login promise resolve? -/
def loginResolved (e : Except String LoginResponse) : Bool :=
  match e with
  | Except.ok _ => true
  | Except.error _ => false

/-- State-level deleteMonitorFromList handler. -/
def deleteMonitorFromList (s : ClientState M) (monitorID : Int) :
    ClientState M :=
  { s with monitorListCache :=
      deleteMonitorFromListCache s.monitorListCache monitorID }

theorem lookupKey_eraseKey_self (m : List (String × α)) (k : String) :
    lookupKey (eraseKey m k) k = none := by
  induction m with
  | nil => rfl
  | cons p t ih =>
    obtain ⟨k0, v0⟩ := p
    by_cases h0 : k0 = k
    · subst h0
      have hstep : eraseKey ((k0, v0) :: t) k0 = eraseKey t k0 := by
        simp [eraseKey]
      rw [hstep, ih]
    · have hstep : eraseKey ((k0, v0) :: t) k = (k0, v0) :: eraseKey t k := by
        simp [eraseKey, h0]
      rw [hstep]
      simp [lookupKey, h0, ih]

/-- Sample heartbeat used by concrete instances: all optional fields keep
their schema defaults except the camelCase monitor id. -/
def mkBeat (mid : Option Int) (st : Int) (message : String) : Heartbeat :=
  { status := st
    time := "2025-01-01 00:00:00"
    msg := message
    important := false
    monitorID := mid }

/-- C1 counterexample: with the cache holding the record with top-level
keys a = 1, b = 2 for monitor id 7, the incremental update supplying the
partial record b = 3, c = 4 for id 7 replaces the stored record wholesale;
the key a does not survive, so the result is not the field-level merge
a = 1, b = 3, c = 4 that the claim asserts. -/
theorem updateMonitorIntoList_not_field_merge :
    lookupKey (updateMonitorIntoList
        [("7", [("a", (1 : Int)), ("b", 2)])]
        [("7", [("b", (3 : Int)), ("c", 4)])]) "7"
      = some [("b", 3), ("c", 4)]
    ∧ lookupKey (updateMonitorIntoList
        [("7", [("a", (1 : Int)), ("b", 2)])]
        [("7", [("b", (3 : Int)), ("c", 4)])]) "7"
      ≠ some [("a", 1), ("b", 3), ("c", 4)] := by
  decide

/-- C1 (amended): updateMonitorIntoList shallow-merges the update object
at the granularity of monitor ids, the top-level keys of the cache object:
every id named in the update gets the supplied record assigned wholesale
(an id absent from the cache gets a new record created), and ids not named
in the update keep their previous records. -/
theorem updateMonitorIntoList_assigns_per_id {M : Type}
    (cache updates : List (String × M)) (k : String)
    (hnd : (updates.map Prod.fst).Nodup) :
    lookupKey (updateMonitorIntoList cache updates) k =
      match lookupKey updates k with
      | some v => some v
      | none => lookupKey cache k :=
  lookupKey_objAssign cache updates k hnd

theorem updateMonitorIntoList_assigns_per_id_witness :
    lookupKey (updateMonitorIntoList
        [("7", [("a", (1 : Int)), ("b", 2)])]
        [("7", [("b", (3 : Int)), ("c", 4)])]) "7"
      = match lookupKey [("7", [("b", (3 : Int)), ("c", 4)])] "7" with
        | some v => some v
        | none => lookupKey [("7", [("a", (1 : Int)), ("b", 2)])] "7" :=
  updateMonitorIntoList_assigns_per_id
    [("7", [("a", (1 : Int)), ("b", 2)])]
    [("7", [("b", (3 : Int)), ("c", 4)])] "7" (by decide)

/-- C7: disconnect clears both caches from every state, including the
never-connected initial state, and a second disconnect leaves the state
unchanged (idempotence). -/
theorem disconnect_clears_and_idempotent {M : Type} (s : ClientState M)
    (n : Nat) :
    getMonitorList (disconnect s) = []
    ∧ getHeartbeatList (disconnect s).heartbeatListCache n = []
    ∧ disconnect (disconnect s) = disconnect s :=
  ⟨rfl, rfl, rfl⟩

/-- C8: with a connected channel, login with the empty-string username
builds a request whose username field is present and equal to the empty
string, with the same key shape as a named-user login, and resolves
exactly when the acknowledgement carries ok, identically to a non-empty
username. -/
theorem login_empty_username_ok {M : Type} (s : ClientState M)
    (password : String) (token : Option String) (response : LoginResponse)
    (h : s.socket = some true) :
    lookupKey (buildLoginData "" password token) "username" = some ""
    ∧ loginResolved (login s "" password token response) = response.ok
    ∧ ∀ username : String,
        (buildLoginData username password token).map Prod.fst
          = (buildLoginData "" password token).map Prod.fst
        ∧ loginResolved (login s username password token response)
          = loginResolved (login s "" password token response) := by
  refine ⟨rfl, ?_, fun username => ⟨rfl, rfl⟩⟩
  rw [login, h]
  cases hok : response.ok <;> simp [hok, loginResolved]

/-- Concrete connected session for the login instance. -/
def connectedClient : ClientState Unit :=
  { socket := some true, monitorListCache := [], heartbeatListCache := [] }

/-- Concrete successful acknowledgement. -/
def okResponse : LoginResponse :=
  { ok := true }

theorem login_empty_username_ok_witness :
    lookupKey (buildLoginData "" "key123" none) "username" = some ""
    ∧ loginResolved (login connectedClient "" "key123" none okResponse)
      = okResponse.ok
    ∧ ((buildLoginData "admin" "key123" none).map Prod.fst
          = (buildLoginData "" "key123" none).map Prod.fst
       ∧ loginResolved (login connectedClient "admin" "key123" none okResponse)
          = loginResolved (login connectedClient "" "key123" none okResponse)) :=
  have h := login_empty_username_ok connectedClient "key123" none okResponse rfl
  ⟨h.1, h.2.1, h.2.2 "admin"⟩

/-- C9: the deleteMonitorFromList handler for id X touches only the
monitor-cache entry for X: every other key keeps its record, the entry
for X itself is removed, the heartbeat cache is entirely unchanged, and
getHeartbeatsForMonitor for X still returns the stored heartbeats of X
after the deletion. -/
theorem deleteMonitorFromList_frame {M : Type} (s : ClientState M) (x : Int)
    (n : Nat) (k : String) (hk : k ≠ toString x) :
    lookupKey (deleteMonitorFromList s x).monitorListCache k
      = lookupKey s.monitorListCache k
    ∧ lookupKey (deleteMonitorFromList s x).monitorListCache (toString x) = none
    ∧ (deleteMonitorFromList s x).heartbeatListCache = s.heartbeatListCache
    ∧ getHeartbeatsForMonitor (deleteMonitorFromList s x) x n
      = getHeartbeatsForMonitor s x n :=
  ⟨lookupKey_eraseKey_ne s.monitorListCache (toString x) k hk,
   lookupKey_eraseKey_self s.monitorListCache (toString x),
   rfl, rfl⟩

/-- Concrete session with one monitor and one cached heartbeat for it. -/
def sessionWithMonitor3 : ClientState Unit :=
  { socket := some true
    monitorListCache := [("3", ())]
    heartbeatListCache := [("3", [mkBeat (some 3) 1 "ok"])] }

theorem deleteMonitorFromList_frame_witness :
    lookupKey (deleteMonitorFromList sessionWithMonitor3 3).monitorListCache "2"
      = lookupKey sessionWithMonitor3.monitorListCache "2"
    ∧ lookupKey (deleteMonitorFromList sessionWithMonitor3 3).monitorListCache
        (toString (3 : Int)) = none
    ∧ (deleteMonitorFromList sessionWithMonitor3 3).heartbeatListCache
      = sessionWithMonitor3.heartbeatListCache
    ∧ getHeartbeatsForMonitor (deleteMonitorFromList sessionWithMonitor3 3) 3 1
      = getHeartbeatsForMonitor sessionWithMonitor3 3 1 :=
  deleteMonitorFromList_frame sessionWithMonitor3 3 1 "2" (by decide)

/-- C10: an incremental heartbeat whose monitorID field equals 0 is
dropped with a diagnostic and leaves the heartbeat cache unchanged,
exactly as when the field is missing; and any heartbeat event that does
change the cache carried a non-zero monitorID. -/
theorem heartbeat_zero_id_dropped (c : HBCache) (hb : Heartbeat)
    (h : hb.monitorID = some 0) :
    handleHeartbeat c hb = (c, true)
    ∧ handleHeartbeat c { hb with monitorID := none } = (c, true)
    ∧ ∀ hb' : Heartbeat, (handleHeartbeat c hb').1 ≠ c →
        ∃ m, hb'.monitorID = some m ∧ m ≠ 0 := by
  refine ⟨by simp [handleHeartbeat, h], by simp [handleHeartbeat], ?_⟩
  intro hb' hne
  cases hmid : hb'.monitorID with
  | none => simp [handleHeartbeat, hmid] at hne
  | some m =>
    by_cases hm : m = 0
    · subst hm
      simp [handleHeartbeat, hmid] at hne
    · exact ⟨m, rfl, hm⟩

theorem heartbeat_zero_id_dropped_witness :
    handleHeartbeat [] (mkBeat (some 0) 1 "ok") = ([], true)
    ∧ handleHeartbeat [] { mkBeat (some 0) 1 "ok" with monitorID := none }
      = ([], true)
    ∧ ∃ m, (mkBeat (some 7) 1 "ok").monitorID = some m ∧ m ≠ 0 :=
  have h := heartbeat_zero_id_dropped [] (mkBeat (some 0) 1 "ok") rfl
  ⟨h.1, h.2.1, h.2.2 (mkBeat (some 7) 1 "ok") (by decide)⟩

/-- The truncation step of the incremental heartbeat handler never leaves
more than 100 entries. -/
theorem trunc_length_le (l : List α) :
    (if 100 < l.length then l.take 100 else l).length ≤ 100 := by
  by_cases h : 100 < l.length
  · simp [h, List.length_take]
  · simp [h]
    omega

/-- After prepending, the head of the (possibly truncated) sequence is the
prepended element. -/
theorem trunc_head (x : α) (prev : List α) :
    (if 100 < (x :: prev).length then (x :: prev).take 100
     else x :: prev).head? = some x := by
  by_cases h : 100 < (x :: prev).length
  · rw [if_pos h]
    have ht : (x :: prev).take 100 = x :: prev.take 99 := rfl
    rw [ht]
    rfl
  · rw [if_neg h]
    rfl

/-- An incremental heartbeat without a monitorID field is dropped. -/
theorem handleHeartbeat_drop_none (c : HBCache) (hb : Heartbeat)
    (h : hb.monitorID = none) : handleHeartbeat c hb = (c, true) := by
  simp [handleHeartbeat, h]

/-- An incremental heartbeat with monitorID equal to 0 is dropped. -/
theorem handleHeartbeat_drop_zero (c : HBCache) (hb : Heartbeat)
    (h : hb.monitorID = some 0) : handleHeartbeat c hb = (c, true) := by
  simp [handleHeartbeat, h]

/-- An incremental heartbeat with a non-zero monitorID prepends and
truncates under the stringified id. -/
theorem handleHeartbeat_fst (c : HBCache) (hb : Heartbeat) (m : Int)
    (hmid : hb.monitorID = some m) (hm : m ≠ 0) :
    (handleHeartbeat c hb).1 =
      setKey c (toString m)
        (if 100 < (hb :: (lookupKey c (toString m)).getD []).length
         then (hb :: (lookupKey c (toString m)).getD []).take 100
         else hb :: (lookupKey c (toString m)).getD []) := by
  simp [handleHeartbeat, hmid, hm]

/-- A full-history push is within the retention ceiling; incremental
events carry no array at all. -/
def pushBoundedB (e : HBEvent) : Bool :=
  match e with
  | .fullList _ hbs => decide (hbs.length ≤ 100)
  | .beat _ => true

/-- Every cache entry is within the retention ceiling. -/
theorem applyHBEvent_bounded (c : HBCache) (e : HBEvent)
    (hc : ∀ p ∈ c, p.2.length ≤ 100) (he : pushBoundedB e = true) :
    ∀ p ∈ applyHBEvent c e, p.2.length ≤ 100 := by
  intro p hp
  cases e with
  | fullList mid hbs =>
    simp only [pushBoundedB, decide_eq_true_eq] at he
    rcases mem_setKey _ _ _ _ hp with h | h
    · exact hc p h
    · rw [h]
      exact he
  | beat hb =>
    cases hmid : hb.monitorID with
    | none =>
      have hdrop := handleHeartbeat_drop_none c hb hmid
      simp only [applyHBEvent, hdrop] at hp
      exact hc p hp
    | some m =>
      by_cases hz : m = 0
      · subst hz
        have hdrop := handleHeartbeat_drop_zero c hb hmid
        simp only [applyHBEvent, hdrop] at hp
        exact hc p hp
      · have hfst := handleHeartbeat_fst c hb m hmid hz
        simp only [applyHBEvent, hfst] at hp
        rcases mem_setKey _ _ _ _ hp with h | h
        · exact hc p h
        · rw [h]
          exact trunc_length_le _

theorem applyHBEvents_bounded (es : List HBEvent) :
    ∀ c : HBCache, (∀ e ∈ es, pushBoundedB e = true) →
    (∀ p ∈ c, p.2.length ≤ 100) →
    ∀ p ∈ applyHBEvents c es, p.2.length ≤ 100 := by
  induction es with
  | nil =>
    intro c _ hc
    simpa [applyHBEvents] using hc
  | cons e t ih =>
    intro c hes hc
    have h1 : pushBoundedB e = true := hes e (by simp)
    have ht : ∀ e2 ∈ t, pushBoundedB e2 = true := fun e2 he2 => hes e2 (by simp [he2])
    have hstep : applyHBEvents c (e :: t) = applyHBEvents (applyHBEvent c e) t := rfl
    rw [hstep]
    exact ih _ ht (applyHBEvent_bounded c e hc h1)

/-- C2 counterexample: a full-history heartbeatList event whose array
holds 101 heartbeats is stored verbatim, so after this single event the
stored sequence of monitor 1 has 101 entries, defeating the claimed
100-entry ceiling. -/
theorem heartbeatList_push_exceeds_ceiling :
    ¬ (((lookupKey (applyHBEvents []
          [HBEvent.fullList 1 (List.replicate 101 (mkBeat (some 1) 1 "ok"))])
        "1").getD []).length ≤ 100) := by
  decide

/-- C2 (amended): starting from the empty cache, after any sequence of
full-history and incremental heartbeat events in which every full-history
push carries at most 100 entries, every stored sequence holds at most 100
entries.  Incremental events always truncate to 100 on insertion, but a
full-history push is stored exactly as given, so the ceiling depends on
the upstream convention that such pushes never exceed 100 entries. -/
theorem heartbeat_ceiling_of_bounded_pushes (es : List HBEvent)
    (h : ∀ e ∈ es, pushBoundedB e = true) :
    ∀ p ∈ applyHBEvents [] es, p.2.length ≤ 100 :=
  applyHBEvents_bounded es [] h (by simp)

theorem heartbeat_ceiling_of_bounded_pushes_witness :
    ([HBEvent.fullList 1 [mkBeat (some 1) 1 "ok"],
      HBEvent.beat (mkBeat (some 1) 1 "up")].all pushBoundedB = true)
    ∧ ([mkBeat (some 1) 1 "up", mkBeat (some 1) 1 "ok"].length ≤ 100) :=
  ⟨by decide,
   heartbeat_ceiling_of_bounded_pushes
     [HBEvent.fullList 1 [mkBeat (some 1) 1 "ok"],
      HBEvent.beat (mkBeat (some 1) 1 "up")]
     (by decide)
     ("1", [mkBeat (some 1) 1 "up", mkBeat (some 1) 1 "ok"])
     (by decide)⟩

/-- Heartbeat carrying its id only under the snake_case field. -/
def snakeOnlyBeat : Heartbeat :=
  { mkBeat none 1 "ok" with monitor_id := some 5 }

/-- C3 counterexample: a heartbeat carrying its owning monitor id only
under the snake_case field monitor_id (camelCase monitorID absent) is
dropped with a diagnostic and leaves the cache unchanged, so the handler
does not recognize the snake_case name. -/
theorem heartbeat_snake_case_only_dropped :
    snakeOnlyBeat.monitor_id = some 5
    ∧ handleHeartbeat [] snakeOnlyBeat = ([], true) := by
  constructor
  · rfl
  · rfl

/-- C3 (amended): the incremental heartbeat handler reads the owning
monitor id only from the camelCase field monitorID: when monitorID is
present and non-zero the heartbeat is prepended (with truncation) under
that id, whatever monitor_id holds; when monitorID is absent the event is
dropped with a diagnostic even if monitor_id carries the id. -/
theorem heartbeat_camelCase_id_only (c : HBCache) (hb : Heartbeat) (m : Int)
    (hmid : hb.monitorID = some m) (hm : m ≠ 0) :
    lookupKey (handleHeartbeat c hb).1 (toString m)
      = some (if 100 < (hb :: (lookupKey c (toString m)).getD []).length
              then (hb :: (lookupKey c (toString m)).getD []).take 100
              else hb :: (lookupKey c (toString m)).getD [])
    ∧ (handleHeartbeat c hb).2 = false
    ∧ ∀ hb2 : Heartbeat, hb2.monitorID = none → handleHeartbeat c hb2 = (c, true) := by
  refine ⟨?_, ?_, fun hb2 h2 => handleHeartbeat_drop_none c hb2 h2⟩
  · rw [handleHeartbeat_fst c hb m hmid hm]
    exact lookupKey_setKey_self _ _ _
  · simp [handleHeartbeat, hmid, hm]

/-- Heartbeat carrying its id under both field names. -/
def bothNamesBeat : Heartbeat :=
  { mkBeat (some 5) 1 "ok" with monitor_id := some 99 }

theorem heartbeat_camelCase_id_only_witness :
    lookupKey (handleHeartbeat [] bothNamesBeat).1 (toString (5 : Int))
      = some [bothNamesBeat]
    ∧ (handleHeartbeat [] bothNamesBeat).2 = false
    ∧ handleHeartbeat [] (mkBeat none 1 "ok") = ([], true) :=
  have h := heartbeat_camelCase_id_only [] bothNamesBeat 5 rfl (by decide)
  ⟨h.1, h.2.1, h.2.2 (mkBeat none 1 "ok") rfl⟩

theorem applyBeats_lookup (hbs : List Heartbeat) (m : Int) (hm : m ≠ 0) :
    ∀ c : HBCache, hbs ≠ [] → (∀ h ∈ hbs, h.monitorID = some m) →
    ∃ l, lookupKey (applyBeats c hbs) (toString m) = some l
      ∧ l.length ≤ 100 ∧ l.head? = hbs.getLast? := by
  induction hbs with
  | nil =>
    intro c hne
    exact absurd rfl hne
  | cons x t ih =>
    intro c _ hall
    have hx : x.monitorID = some m := hall x (by simp)
    cases t with
    | nil =>
      have hstep : applyBeats c [x] = (handleHeartbeat c x).1 := rfl
      rw [hstep, handleHeartbeat_fst c x m hx hm]
      exact ⟨_, lookupKey_setKey_self _ _ _, trunc_length_le _, trunc_head x _⟩
    | cons y t2 =>
      have hstep : applyBeats c (x :: y :: t2)
          = applyBeats ((handleHeartbeat c x).1) (y :: t2) := rfl
      rw [hstep]
      have hall2 : ∀ h ∈ y :: t2, h.monitorID = some m :=
        fun h hh => hall h (by simp [hh])
      obtain ⟨l, h1, h2, h3⟩ := ih _ (by simp) hall2
      refine ⟨l, h1, h2, ?_⟩
      rw [h3, List.getLast?_cons_cons]

/-- C4: after any non-empty sequence of incremental heartbeat pushes for
one monitor (with the non-zero id every real monitor has) applied to the
empty cache, the stored sequence for that monitor holds at most 100
entries and its first element is the heartbeat delivered by the most
recent push. -/
theorem incremental_pushes_invariant (hbs : List Heartbeat) (m : Int)
    (hm : m ≠ 0) (hne : hbs ≠ []) (hall : ∀ h ∈ hbs, h.monitorID = some m) :
    ∃ l, lookupKey (applyBeats [] hbs) (toString m) = some l
      ∧ l.length ≤ 100 ∧ l.head? = hbs.getLast? :=
  applyBeats_lookup hbs m hm [] hne hall

theorem incremental_pushes_invariant_witness :
    ∃ l, lookupKey
        (applyBeats [] [mkBeat (some 7) 1 "first", mkBeat (some 7) 0 "second"])
        (toString (7 : Int)) = some l
      ∧ l.length ≤ 100
      ∧ l.head? = [mkBeat (some 7) 1 "first", mkBeat (some 7) 0 "second"].getLast? :=
  incremental_pushes_invariant
    [mkBeat (some 7) 1 "first", mkBeat (some 7) 0 "second"] 7
    (by decide) (by decide) (by decide)

theorem lookupKey_getHeartbeatList (c : HBCache) (n : Nat) (k : String) :
    lookupKey (getHeartbeatList c n) k
      = (lookupKey c k).map (fun l => l.take n) := by
  induction c with
  | nil => rfl
  | cons p t ih =>
    obtain ⟨k0, l0⟩ := p
    by_cases h : k0 = k
    · simp [getHeartbeatList, lookupKey, h]
    · simpa [getHeartbeatList, lookupKey, h] using ih

/-- C5 counterexample: a full-history event carrying an empty array for
monitor 5 stores an empty sequence, and getHeartbeatList then returns an
entry mapping monitor 5 to the empty sequence, although monitor 5 has no
stored heartbeats — the claim says such a monitor is absent from the
result rather than mapped to an empty sequence. -/
theorem getHeartbeatList_keeps_empty_entry :
    applyHBEvents [] [HBEvent.fullList 5 []] = [("5", [])]
    ∧ lookupKey (getHeartbeatList [("5", ([] : List Heartbeat))] 1) "5"
      = some [] := by
  constructor
  · rfl
  · rfl

/-- C5 (amended): for every cache state and every maxHeartbeats of at
least 1, getHeartbeatList mirrors the heartbeat cache exactly: every
monitor with a cache entry appears mapped to the first maxHeartbeats
entries of its stored sequence in stored (most-recent-first) order, and
every monitor without a cache entry is absent from the result.  A monitor
whose stored sequence is empty hence appears mapped to an empty
sequence, not absent. -/
theorem getHeartbeatList_mirrors_cache (c : HBCache) (maxHeartbeats : Nat)
    (hmax : 1 ≤ maxHeartbeats) :
    (∀ k l, lookupKey c k = some l →
      lookupKey (getHeartbeatList c maxHeartbeats) k = some (l.take maxHeartbeats))
    ∧ (∀ k, lookupKey c k = none →
      lookupKey (getHeartbeatList c maxHeartbeats) k = none) := by
  constructor
  · intro k l h
    rw [lookupKey_getHeartbeatList, h]
    rfl
  · intro k h
    rw [lookupKey_getHeartbeatList, h]
    rfl

theorem getHeartbeatList_mirrors_cache_witness :
    ((1 : Nat) ≤ 1)
    ∧ lookupKey (getHeartbeatList [("5", ([] : List Heartbeat))] 1) "5"
      = some (([] : List Heartbeat).take 1)
    ∧ lookupKey (getHeartbeatList [("5", ([] : List Heartbeat))] 1) "9" = none :=
  have h := getHeartbeatList_mirrors_cache [("5", ([] : List Heartbeat))] 1 (by decide)
  ⟨by decide, h.1 "5" [] (by decide), h.2 "9" (by decide)⟩

theorem summaryStep_of_matches (tokens : List String) (hcache : HBCache)
    (p : String × MonitorRec) (hmatch : matchesKeywords tokens p.2 = true) :
    summaryStep tokens hcache p = some (summarize hcache p.1 p.2) := by
  simp [summaryStep, hmatch]

theorem summaryStep_of_not_matches (a : String) (as : List String)
    (hcache : HBCache) (p : String × MonitorRec)
    (hmatch : matchesKeywords (a :: as) p.2 = false) :
    summaryStep (a :: as) hcache p = none := by
  simp [summaryStep, hmatch]

theorem filterMap_summary_eq (tokens : List String) (hcache : HBCache) :
    ∀ mcache : List (String × MonitorRec),
    mcache.filterMap (summaryStep tokens hcache)
    = (mcache.filter (fun p => matchesKeywords tokens p.2)).map
        (fun p => summarize hcache p.1 p.2) := by
  intro mcache
  induction mcache with
  | nil => rfl
  | cons p t ih =>
    by_cases hmatch : matchesKeywords tokens p.2
    · rw [List.filterMap_cons_some (summaryStep_of_matches tokens hcache p hmatch)]
      simp [List.filter_cons, hmatch, ih]
    · cases tokens with
      | nil => simp [matchesKeywords] at hmatch
      | cons a as =>
        simp only [Bool.not_eq_true] at hmatch
        rw [List.filterMap_cons_none (summaryStep_of_not_matches a as hcache p hmatch)]
        simp [List.filter_cons, hmatch, ih]

/-- C6: for every cache state and every non-empty keywords string,
getMonitorSummary returns, in cache order, exactly the summaries of the
monitors whose lowercased pathName contains every lowercase
whitespace-separated token of keywords (AND over all tokens, order of
tokens irrelevant since all must hold); all other monitors are
excluded. -/
theorem getMonitorSummary_keyword_semantics
    (mcache : List (String × MonitorRec)) (hcache : HBCache) (kw : String)
    (hkw : kw ≠ "") :
    getMonitorSummary mcache hcache (some kw)
      = (mcache.filter (fun p => matchesKeywords (keywordTokens kw) p.2)).map
          (fun p => summarize hcache p.1 p.2) := by
  have hparse : parsedKeywords (some kw) = keywordTokens kw := by
    simp only [parsedKeywords]
    rw [if_neg hkw]
  rw [getMonitorSummary, hparse]
  exact filterMap_summary_eq _ _ _

/-- Monitor fixtures for the keyword-filter instance. -/
def prodApi : MonitorRec :=
  { id := 1, name := "API", pathName := "prod/api",
    active := true, maintenance := false }

def prodWeb : MonitorRec :=
  { id := 2, name := "Web", pathName := "prod/web",
    active := true, maintenance := false }

def exampleMonitorCache : List (String × MonitorRec) :=
  [("1", prodApi), ("2", prodWeb)]

theorem getMonitorSummary_keyword_semantics_witness :
    getMonitorSummary exampleMonitorCache [] (some "prod api")
      = (exampleMonitorCache.filter
          (fun p => matchesKeywords (keywordTokens "prod api") p.2)).map
          (fun p => summarize [] p.1 p.2)
    ∧ (getMonitorSummary exampleMonitorCache [] (some "prod api")).map
        (fun s => s.pathName) = ["prod/api"]
    ∧ (getMonitorSummary exampleMonitorCache [] (some "prod")).map
        (fun s => s.pathName) = ["prod/api", "prod/web"]
    ∧ (getMonitorSummary exampleMonitorCache [] (some "staging")).map
        (fun s => s.pathName) = [] :=
  ⟨getMonitorSummary_keyword_semantics exampleMonitorCache [] "prod api"
      (by decide),
   by decide, by decide, by decide⟩
